import Mathlib

/-!
Shallow embedding of the nitric deployment CLI's code-as-config discovery
engine: the declaration capture server (package codeconfig), the build
passes (package build), the table output renderer (package output), and
the dependency-graph merge described by the design documentation.

Go source translated here:
- Server.TriggerStream, Server.Declare, Server.Details (codeconfig server)
- build.Create, build.CreateBaseDev (ephemeral build harness)
- output.printMap (table rendering of map values)
The protobuf payload types and the FunctionDependencies accumulator
methods are not part of the sources at hand; their shapes follow the
design documentation and are marked as such in their doc comments.
-/

namespace NitricSpec

/-! ## Protocol data model -/

/-- Payload of an Api worker registration (proto ApiWorker). -/
structure ApiWorker where
  api : String
deriving DecidableEq, Repr

/-- Payload of a Schedule worker registration (proto ScheduleWorker). -/
structure ScheduleWorker where
  cron : String
deriving DecidableEq, Repr

/-- Payload of a Subscription worker registration (proto SubscriptionWorker). -/
structure SubscriptionWorker where
  topic : String
deriving DecidableEq, Repr

/-- The oneof Worker field of an InitRequest: Api, Schedule, Subscription,
or unset (a plain invocable function, the default case of the Go type
switch in TriggerStream). -/
inductive WorkerSpec where
  | api (w : ApiWorker)
  | schedule (w : ScheduleWorker)
  | subscription (w : SubscriptionWorker)
  | plain
deriving DecidableEq, Repr

/-- The identity handshake message (proto InitRequest). -/
structure InitRequest where
  worker : WorkerSpec
deriving DecidableEq, Repr

/-- A message received on a trigger stream; GetInitRequest yields the
InitRequest member of the oneof or nil, modelled by an Option. -/
structure ClientMessage where
  initRequest : Option InitRequest
deriving DecidableEq, Repr

/-- Proto ResourceType enum. Proto3 enums are open: a value outside the
named set is carried as its wire number, modelled by `unrecognized`. -/
inductive ResourceType where
  | bucket
  | collection
  | queue
  | topic
  | policy
  | secret
  | api
  | unrecognized (code : Nat)
deriving DecidableEq, Repr

/-- Printed name of a resource type, as fmt's %s renders the enum. -/
def ResourceType.typeName : ResourceType → String
  | .bucket => "Bucket"
  | .collection => "Collection"
  | .queue => "Queue"
  | .topic => "Topic"
  | .policy => "Policy"
  | .secret => "Secret"
  | .api => "Api"
  | .unrecognized n => toString n

/-- The per-function accumulator of discovered declarations.
Modelled from the spec: the FunctionDependencies type itself is not among
the sources at hand; its attribute sets follow the design documentation
(api route bindings, schedule bindings, subscription bindings, and the
declared resources keyed by kind and name). -/
structure FunctionDependencies where
  apis : List ApiWorker
  schedules : List ScheduleWorker
  subscriptions : List SubscriptionWorker
  buckets : List (String × String)
  collections : List (String × String)
  queues : List (String × String)
  topics : List (String × String)
  policies : List String
  secrets : List (String × String)
  apiSecurityDefinitions : List (String × String)
  apiSecurity : List (String × String)
deriving DecidableEq, Repr

/-- A fresh, empty accumulator, as created when a function's discovery
session begins. -/
def emptyFunctionDependencies : FunctionDependencies :=
  ⟨[], [], [], [], [], [], [], [], [], [], []⟩

/-- Insert an element unless it is already present; the idempotent no-op
merge used by the declaration accumulators. -/
def insertOnce {α : Type} [DecidableEq α] (x : α) (l : List α) : List α :=
  if x ∈ l then l else l ++ [x]

/-- Modelled from the spec: AddApiHandler is not among the sources at
hand; per the documentation it records the Api binding into the
function's FunctionDependencies. -/
def addApiHandler (fd : FunctionDependencies) (w : ApiWorker) : FunctionDependencies :=
  { fd with apis := fd.apis ++ [w] }

/-- Modelled from the spec: AddScheduleHandler is not among the sources
at hand; per the documentation it records the Schedule binding. -/
def addScheduleHandler (fd : FunctionDependencies) (w : ScheduleWorker) : FunctionDependencies :=
  { fd with schedules := fd.schedules ++ [w] }

/-- Modelled from the spec: AddSubscriptionHandler is not among the
sources at hand; per the documentation it records the Subscription
binding. -/
def addSubscriptionHandler (fd : FunctionDependencies) (w : SubscriptionWorker) :
    FunctionDependencies :=
  { fd with subscriptions := fd.subscriptions ++ [w] }

/-- Modelled from the spec: AddBucket records a declared bucket;
re-declaring the same name with the same metadata is a no-op merge. -/
def addBucket (fd : FunctionDependencies) (name cfg : String) : FunctionDependencies :=
  { fd with buckets := insertOnce (name, cfg) fd.buckets }

/-- Modelled from the spec: AddCollection records a declared collection. -/
def addCollection (fd : FunctionDependencies) (name cfg : String) : FunctionDependencies :=
  { fd with collections := insertOnce (name, cfg) fd.collections }

/-- Modelled from the spec: AddQueue records a declared queue. -/
def addQueue (fd : FunctionDependencies) (name cfg : String) : FunctionDependencies :=
  { fd with queues := insertOnce (name, cfg) fd.queues }

/-- Modelled from the spec: AddTopic records a declared topic. -/
def addTopic (fd : FunctionDependencies) (name cfg : String) : FunctionDependencies :=
  { fd with topics := insertOnce (name, cfg) fd.topics }

/-- Modelled from the spec: AddPolicy records a declared policy. -/
def addPolicy (fd : FunctionDependencies) (cfg : String) : FunctionDependencies :=
  { fd with policies := insertOnce cfg fd.policies }

/-- Modelled from the spec: AddSecret records a declared secret. -/
def addSecret (fd : FunctionDependencies) (name cfg : String) : FunctionDependencies :=
  { fd with secrets := insertOnce (name, cfg) fd.secrets }

/-- Modelled from the spec: AddApiSecurityDefinitions records an Api
security-definition map for a named api. -/
def addApiSecurityDefinitions (fd : FunctionDependencies) (name defs : String) :
    FunctionDependencies :=
  { fd with apiSecurityDefinitions := insertOnce (name, defs) fd.apiSecurityDefinitions }

/-- Modelled from the spec: AddApiSecurity records an Api security
requirement list for a named api. -/
def addApiSecurity (fd : FunctionDependencies) (name sec : String) : FunctionDependencies :=
  { fd with apiSecurity := insertOnce (name, sec) fd.apiSecurity }

/-! ## Server.TriggerStream -/

/-- Errors the capture server surfaces on a trigger stream. The
`protocolViolation` constructor models status.Error with
codes.FailedPrecondition (the design documentation's ProtocolViolation);
`internalStreamRead` models status.Errorf with codes.Internal. -/
inductive ServerError where
  | internalStreamRead (msg : String)
  | protocolViolation (msg : String)
deriving DecidableEq, Repr

/-- The observable outcome of one TriggerStream session: the error (if
any) with which the handler returned, the accumulator state on exit, how
many messages were read from the stream, and how many replies were sent
back on it. -/
structure StreamOutcome where
  err : Option ServerError
  fd : FunctionDependencies
  msgsRead : Nat
  repliesSent : Nat
deriving DecidableEq, Repr

/-- Server.TriggerStream: receive the first message from the stream; if
it is not an InitRequest, fail with FailedPrecondition; otherwise
dispatch on the worker oneof to record the binding and return, closing
the stream. The Go handler never calls stream.Send and never calls
stream.Recv a second time. The stream's pending messages are modelled as
the list `msgs`. -/
def TriggerStream (fd : FunctionDependencies) (msgs : List ClientMessage) : StreamOutcome :=
  match msgs with
  | [] =>
    { err := some (.internalStreamRead "error reading message from stream")
      fd := fd, msgsRead := 0, repliesSent := 0 }
  | m :: _ =>
    match m.initRequest with
    | none =>
      { err := some (.protocolViolation "first message must be InitRequest")
        fd := fd, msgsRead := 1, repliesSent := 0 }
    | some ir =>
      match ir.worker with
      | .api w => { err := none, fd := addApiHandler fd w, msgsRead := 1, repliesSent := 0 }
      | .schedule w =>
        { err := none, fd := addScheduleHandler fd w, msgsRead := 1, repliesSent := 0 }
      | .subscription w =>
        { err := none, fd := addSubscriptionHandler fd w, msgsRead := 1, repliesSent := 0 }
      | .plain => { err := none, fd := fd, msgsRead := 1, repliesSent := 0 }

/-- Helper: the single client message carrying an InitRequest with the
given worker oneof. -/
def initMsg (w : WorkerSpec) : ClientMessage :=
  { initRequest := some { worker := w } }

/-! ## Server.Declare and Server.Details -/

/-- The Resource field common to declare and details requests. -/
structure ProtoResource where
  rtype : ResourceType
  name : String
deriving DecidableEq, Repr

/-- Proto ResourceDeclareRequest: the resource plus the kind-specific
config payloads (each payload modelled as an opaque string). -/
structure ResourceDeclareRequest where
  resource : ProtoResource
  bucketCfg : String
  collectionCfg : String
  queueCfg : String
  topicCfg : String
  policyCfg : String
  secretCfg : String
  apiSecurityDefinitionsCfg : String
  apiSecurityCfg : String
deriving DecidableEq, Repr

/-- Error taxonomy for a declaration call; present so that the
documentation's UnsupportedResourceKind outcome is statable. The Go
Declare handler always returns a nil error. -/
inductive DeclareError where
  | unsupportedResourceKind (k : ResourceType)
deriving DecidableEq, Repr

/-- Server.Declare: dispatch on the resource kind to the matching
accumulator method, then return an empty response with a nil error. The
Go switch statement has no default case, so a kind outside the seven
recognized ones falls through with no accumulator call and no error. -/
def Declare (fd : FunctionDependencies) (req : ResourceDeclareRequest) :
    FunctionDependencies × Option DeclareError :=
  let fd' :=
    match req.resource.rtype with
    | .bucket => addBucket fd req.resource.name req.bucketCfg
    | .collection => addCollection fd req.resource.name req.collectionCfg
    | .queue => addQueue fd req.resource.name req.queueCfg
    | .topic => addTopic fd req.resource.name req.topicCfg
    | .policy => addPolicy fd req.policyCfg
    | .secret => addSecret fd req.resource.name req.secretCfg
    | .api =>
      addApiSecurity (addApiSecurityDefinitions fd req.resource.name
        req.apiSecurityDefinitionsCfg) req.resource.name req.apiSecurityCfg
    | .unrecognized _ => fd
  (fd', none)

/-- Proto ApiResourceDetails. -/
structure ApiResourceDetails where
  url : String
deriving DecidableEq, Repr

/-- Proto ResourceDetailsResponse as built by Server.Details. -/
structure ResourceDetailsResponse where
  provider : String
  service : String
  id : String
  api : Option ApiResourceDetails
deriving DecidableEq, Repr

/-- Server.Details: for an Api-kind query, always answer with the dev
provider metadata and a localhost url derived from the resource name;
for every other kind, fail with an unsupported-resource-type error. The
receiver's FunctionDependencies is in scope but never consulted. -/
def Details (fd : FunctionDependencies) (req : ProtoResource) :
    Except String ResourceDetailsResponse :=
  match req.rtype with
  | .api =>
    .ok { provider := "dev", service := "Api", id := req.name
          api := some { url := "http://localhost:50051/apis/" ++ req.name } }
  | k => .error ("unsupported resource type " ++ k.typeName)

/-- Whether the accumulator holds a prior declaration for the given kind
and name. -/
def declares (fd : FunctionDependencies) (k : ResourceType) (n : String) : Bool :=
  match k with
  | .bucket => fd.buckets.any (fun p => p.1 == n)
  | .collection => fd.collections.any (fun p => p.1 == n)
  | .queue => fd.queues.any (fun p => p.1 == n)
  | .topic => fd.topics.any (fun p => p.1 == n)
  | .policy => fd.policies.any (fun p => p == n)
  | .secret => fd.secrets.any (fun p => p.1 == n)
  | .api =>
    fd.apiSecurityDefinitions.any (fun p => p.1 == n) || fd.apiSecurity.any (fun p => p.1 == n)
  | .unrecognized _ => false

/-! ## build.Create and build.CreateBaseDev -/

/-- One function of a project, together with the result each effectful
step of the build pass would have for it: descriptor creation
(os.CreateTemp), runtime resolution (runtime.NewRunTimeFromHandler),
dockerfile generation, and the engine image build. `none` means the step
succeeds; `some e` means it fails with diagnostic `e`. -/
structure FnSpec where
  name : String
  handler : String
  descriptorErr : Option String
  runtimeErr : Option String
  genErr : Option String
  buildErr : Option String
deriving DecidableEq, Repr

/-- One pre-built container of a project (built from its own Dockerfile;
no ephemeral descriptor involved). -/
structure ContainerSpec where
  name : String
  dockerfile : String
  buildErr : Option String
deriving DecidableEq, Repr

/-- A project as the build pass sees it, plus whether
containerengine.Discover would fail for the run. -/
structure BuildProject where
  dir : String
  engineErr : Option String
  functions : List FnSpec
  containers : List ContainerSpec
deriving DecidableEq, Repr

/-- The filesystem- and engine-visible state threaded through a build
pass: a counter for fresh temp-file names, the descriptor files that
currently exist, the removals registered by defer statements (executed
when the pass returns), and the image tags built so far. -/
structure BuildState where
  ctr : Nat
  files : List String
  deferredRm : List String
  builds : List String
deriving DecidableEq, Repr

/-- State of a pass before it has done anything. -/
def initialBuildState : BuildState := { ctr := 0, files := [], deferredRm := [], builds := [] }

/-- Name of the n-th ephemeral descriptor a pass creates: os.CreateTemp
with pattern nitric.dynamic.Dockerfile.* yields a fresh unique name. -/
def descName (n : Nat) : String := "nitric.dynamic.Dockerfile." ++ toString n

/-- Image tag for a deployable function image, f.ImageTagName. -/
def imageTag (f : FnSpec) : String := f.name ++ "-image"

/-- The function loop of build.Create: per function, create the
descriptor (registering its removal with defer), resolve the runtime,
generate the dockerfile, and build the image; any step's error is
returned immediately, abandoning the remaining functions. -/
def createLoop : List FnSpec → BuildState → Option String × BuildState
  | [], st => (none, st)
  | f :: rest, st =>
    match f.descriptorErr with
    | some e => (some e, st)
    | none =>
      let fname := descName st.ctr
      let st1 : BuildState :=
        { st with ctr := st.ctr + 1, files := st.files ++ [fname]
                  deferredRm := st.deferredRm ++ [fname] }
      match f.runtimeErr with
      | some e => (some e, st1)
      | none =>
        match f.genErr with
        | some e => (some e, st1)
        | none =>
          match f.buildErr with
          | some e => (some e, st1)
          | none => createLoop rest { st1 with builds := st1.builds ++ [imageTag f] }

/-- The container loop of build.Create: build each pre-built container's
image from its own Dockerfile; the first error aborts. -/
def containersLoop : List ContainerSpec → BuildState → Option String × BuildState
  | [], st => (none, st)
  | c :: rest, st =>
    match c.buildErr with
    | some e => (some e, st)
    | none => containersLoop rest { st with builds := st.builds ++ [c.name ++ "-image"] }

/-- Run the removals registered by defer statements; in Go they execute
on every return path of the surrounding function. -/
def runDeferredRemovals (st : BuildState) : BuildState :=
  { st with files := st.files.filter (fun x => !(st.deferredRm.contains x)), deferredRm := [] }

/-- build.Create: discover the container engine, run the function loop
then the container loop, stopping at the first error; the deferred
descriptor removals run when the function returns, on every path. -/
def Create (p : BuildProject) : Option String × BuildState :=
  match p.engineErr with
  | some e => (some e, runDeferredRemovals initialBuildState)
  | none =>
    let r :=
      match createLoop p.functions initialBuildState with
      | (some e, st) => (some e, st)
      | (none, st) => containersLoop p.containers st
    (r.1, runDeferredRemovals r.2)

/-- The runtime language of a handler, as build.CreateBaseDev derives it:
filepath.Ext gives the extension of the handler path including the
leading dot, and strings.Replace drops that first dot. A handler with no
dot has extension "" and hence language "". -/
def langOf (handler : String) : String :=
  let parts := handler.splitOn "."
  if parts.length ≤ 1 then "" else parts.getLastD ""

/-- Dev image name for a runtime, rt.DevImageName; the runtime, and so
the image name, is derived from the handler's language. -/
def devImageName (lang : String) : String := "nitric-" ++ lang ++ "-dev"

/-- State threaded through build.CreateBaseDev: temp-name counter,
existing descriptor files, deferred removals, the language of each
engine build performed (in order), and the imagesToBuild map keyed by
language. -/
structure DevState where
  ctr : Nat
  files : List String
  deferredRm : List String
  devBuilds : List String
  imagesToBuild : List (String × String)
deriving DecidableEq, Repr

/-- State of a dev-image pass before it has done anything. -/
def initialDevState : DevState :=
  { ctr := 0, files := [], deferredRm := [], devBuilds := [], imagesToBuild := [] }

/-- The function loop of build.CreateBaseDev: resolve the runtime, skip
the function if an image for its language is already recorded in
imagesToBuild, otherwise create the descriptor (defer close+remove),
generate the code-as-config dockerfile, build the dev image, and record
the language in imagesToBuild. The first error aborts the loop. -/
def baseDevLoop : List FnSpec → DevState → Option String × DevState
  | [], st => (none, st)
  | f :: rest, st =>
    match f.runtimeErr with
    | some e => (some e, st)
    | none =>
      let lang := langOf f.handler
      if (st.imagesToBuild.map Prod.fst).contains lang then
        baseDevLoop rest st
      else
        match f.descriptorErr with
        | some e => (some e, st)
        | none =>
          let fname := descName st.ctr
          let st1 : DevState :=
            { st with ctr := st.ctr + 1, files := st.files ++ [fname]
                      deferredRm := st.deferredRm ++ [fname] }
          match f.genErr with
          | some e => (some e, st1)
          | none =>
            match f.buildErr with
            | some e => (some e, st1)
            | none =>
              baseDevLoop rest
                { st1 with devBuilds := st1.devBuilds ++ [lang]
                           imagesToBuild := st1.imagesToBuild ++ [(lang, devImageName lang)] }

/-- Run the removals registered by defer statements in CreateBaseDev. -/
def runDevDeferredRemovals (st : DevState) : DevState :=
  { st with files := st.files.filter (fun x => !(st.deferredRm.contains x)), deferredRm := [] }

/-- build.CreateBaseDev: discover the engine then run the dev-image loop
over the project's functions; deferred descriptor removals run when the
function returns, on every path. -/
def CreateBaseDev (p : BuildProject) : Option String × DevState :=
  match p.engineErr with
  | some e => (some e, runDevDeferredRemovals initialDevState)
  | none =>
    let r := baseDevLoop p.functions initialDevState
    (r.1, runDevDeferredRemovals r.2)

/-! ## output.printMap -/

/-- The reflected kind of a map's value, as printMap's switch sees it:
a struct (its renderable field values, in field order), a simple value
(rendered directly), or one of the composite kinds slice, array, func,
chan, interface and map, which the switch skips as not yet supported. -/
inductive TValue where
  | strct (fields : List String)
  | simple (s : String)
  | composite
deriving DecidableEq, Repr

/-- Go map indexing, value.MapIndex(k): the value stored under a key.
The map's entries are modelled as an association list with unique keys;
indexing is lookup of the first matching key. -/
def mapIndex : List (String × TValue) → String → Option TValue
  | [], _ => none
  | (k, v) :: rest, key => if k = key then some v else mapIndex rest key

/-- The table row printMap emits for one key, if any: for a struct value
the key followed by the fields, appended only while the row is no longer
than the header names; for a simple value the key and the value; for a
composite value no row. -/
def rowFor (names : List String) (k : String) : Option TValue → Option (List String)
  | some (.strct fields) => some (k :: fields.take names.length)
  | some (.simple s) => some [k, s]
  | some .composite => none
  | none => none

/-- sort.SliceStable over the collected keys with less-than on their
string values. -/
def sortKeys (keys : List String) : List String :=
  List.insertionSort (· ≤ ·) keys

/-- output.printMap: collect the map's keys in iteration order, sort
them by ascending string value, and emit a header row ("key" plus the
element type's field names) followed by one row per sorted key whose
value the switch supports. `pairs` is the map's contents in the
(arbitrary) iteration order MapRange produced. -/
def printMap (names : List String) (pairs : List (String × TValue)) : List (List String) :=
  let keyList := pairs.map Prod.fst
  let rows := (sortKeys keyList).filterMap (fun k => rowFor names k (mapIndex pairs k))
  ("key" :: names) :: rows

/-- The keys of the data rows of a rendered table, in emitted order. -/
def dataRowKeys (out : List (List String)) : List String :=
  out.tail.filterMap (fun r => r.head?)

/-! ## Dependency-graph merge -/

/-- Modelled from the spec: a ResourceClaim, a function's declared
intent to use a named resource with a given access mode. -/
structure ResourceClaim where
  kind : ResourceType
  name : String
  requestingFunction : String
  accessMode : String
deriving DecidableEq, Repr

/-- Modelled from the spec: the merge algorithm of the dependency-graph
model (the codeconfig merge code is not among the sources at hand).
Claims are grouped by kind and name, and each group's resource entry
carries the union of the contributing functions' access modes. The graph
is the map from a kind-and-name key to that policy set. -/
def mergeGraph (claims : List ResourceClaim) (k : ResourceType) (n : String) :
    Finset (String × String) :=
  ((claims.filter (fun c => c.kind = k && c.name = n)).map
    (fun c => (c.requestingFunction, c.accessMode))).toFinset

/-! ## Concrete fixtures used by counterexamples and witnesses -/

/-- An accumulator already holding one bucket claim. -/
def fdWithBucket : FunctionDependencies :=
  addBucket emptyFunctionDependencies "uploads" "bucketcfg"

/-- A declaration request whose kind is outside the recognized set. -/
def unknownKindReq : ResourceDeclareRequest :=
  { resource := { rtype := .unrecognized 42, name := "mystery" }
    bucketCfg := "", collectionCfg := "", queueCfg := "", topicCfg := ""
    policyCfg := "", secretCfg := "", apiSecurityDefinitionsCfg := "", apiSecurityCfg := "" }

/-- Function A, whose engine image build fails. -/
def fnA : FnSpec :=
  { name := "A", handler := "a.go", descriptorErr := none, runtimeErr := none
    genErr := none, buildErr := some "engine: boom" }

/-- Function B, for which every build step succeeds. -/
def fnB : FnSpec :=
  { name := "B", handler := "b.go", descriptorErr := none, runtimeErr := none
    genErr := none, buildErr := none }

/-- A two-function project where A's build fails and B's would succeed. -/
def projAB : BuildProject :=
  { dir := "/p", engineErr := none, functions := [fnA, fnB], containers := [] }

/-- Function A's read claim on bucket uploads. -/
def claimA : ResourceClaim :=
  { kind := .bucket, name := "uploads", requestingFunction := "A", accessMode := "read" }

/-- Function B's write claim on bucket uploads. -/
def claimB : ResourceClaim :=
  { kind := .bucket, name := "uploads", requestingFunction := "B", accessMode := "write" }

/-! ## Claim theorems: capture protocol -/

/-- C1: a capture session whose first received message is not an
InitRequest fails with the ProtocolViolation error (the
FailedPrecondition status whose message is "first message must be
InitRequest"), terminates after that single read without retry or
reply, and leaves the FunctionDependencies accumulator untouched. -/
theorem triggerStream_first_not_init (fd : FunctionDependencies) (rest : List ClientMessage) :
    TriggerStream fd ({ initRequest := none } :: rest) =
      { err := some (.protocolViolation "first message must be InitRequest")
        fd := fd, msgsRead := 1, repliesSent := 0 } := rfl

/-- C4: a session whose first message is a valid InitRequest carrying an
Api, Schedule, or Subscription worker role records exactly that one
binding on the function's FunctionDependencies (leaving every other
field unchanged) and returns with no error after reading only the first
message and sending no reply, whatever else is pending on the stream. -/
theorem triggerStream_records_single_binding (fd : FunctionDependencies)
    (rest : List ClientMessage) :
    (∀ w : ApiWorker, TriggerStream fd (initMsg (.api w) :: rest) =
      { err := none, fd := { fd with apis := fd.apis ++ [w] }
        msgsRead := 1, repliesSent := 0 }) ∧
    (∀ w : ScheduleWorker, TriggerStream fd (initMsg (.schedule w) :: rest) =
      { err := none, fd := { fd with schedules := fd.schedules ++ [w] }
        msgsRead := 1, repliesSent := 0 }) ∧
    (∀ w : SubscriptionWorker, TriggerStream fd (initMsg (.subscription w) :: rest) =
      { err := none, fd := { fd with subscriptions := fd.subscriptions ++ [w] }
        msgsRead := 1, repliesSent := 0 }) :=
  ⟨fun _ => rfl, fun _ => rfl, fun _ => rfl⟩

/-- C6: a session identified as a plain function (a valid InitRequest
carrying none of the Api, Schedule or Subscription roles) closes without
error after the single read and leaves the accumulator exactly as it
was, so it produces zero trigger bindings. -/
theorem triggerStream_plain_function (fd : FunctionDependencies) (rest : List ClientMessage) :
    TriggerStream fd (initMsg .plain :: rest) =
      { err := none, fd := fd, msgsRead := 1, repliesSent := 0 } := rfl

/-- C2 counterexample: declaring a resource of an unrecognized kind does
NOT fail with UnsupportedResourceKind — the Go switch has no default
case, so Declare returns a nil error (while indeed leaving prior claims
intact). -/
theorem declare_unrecognized_no_error :
    (Declare fdWithBucket unknownKindReq).2 = none ∧
    (Declare fdWithBucket unknownKindReq).1 = fdWithBucket :=
  ⟨rfl, rfl⟩

/-- C2 amended: declaring a resource whose kind is outside the
recognized set is silently ignored: the call succeeds with a nil error
(never UnsupportedResourceKind) and leaves all prior accumulated claims
for the function intact. -/
theorem declare_unrecognized_silently_ignored (fd : FunctionDependencies) (code : Nat)
    (n b c q t p s d a : String) :
    Declare fd { resource := { rtype := .unrecognized code, name := n }
                 bucketCfg := b, collectionCfg := c, queueCfg := q, topicCfg := t
                 policyCfg := p, secretCfg := s, apiSecurityDefinitionsCfg := d
                 apiSecurityCfg := a } = (fd, none) := rfl

/-- C7 counterexample: a describe-resource query for an Api that was
never declared (the accumulator is empty) still succeeds with resolved
metadata, contradicting the claim that metadata is returned only for
previously declared resources. -/
theorem details_undeclared_api_succeeds :
    declares emptyFunctionDependencies .api "ghost" = false ∧
    Details emptyFunctionDependencies { rtype := .api, name := "ghost" } =
      .ok { provider := "dev", service := "Api", id := "ghost"
            api := some { url := "http://localhost:50051/apis/" ++ "ghost" } } :=
  ⟨rfl, rfl⟩

/-- C7 amended: Details never consults the declared state — its answer
is the same under any two accumulators — and it succeeds exactly on
Api-kind queries (synthesizing dev metadata from the queried name),
failing with an unsupported-resource-type error for every other kind. -/
theorem details_ignores_declarations (fd fd' : FunctionDependencies) (req : ProtoResource) :
    Details fd req = Details fd' req ∧
    ((∃ r, Details fd req = .ok r) ↔ req.rtype = .api) := by
  obtain ⟨t, n⟩ := req
  cases t <;> simp [Details]

/-- Closed instance of the Details theorem at a concrete non-Api query
against the empty and the bucket-holding accumulators. -/
theorem details_ignores_declarations_witness :
    Details emptyFunctionDependencies { rtype := .bucket, name := "uploads" } =
      Details fdWithBucket { rtype := .bucket, name := "uploads" } ∧
    ((∃ r, Details emptyFunctionDependencies { rtype := .bucket, name := "uploads" } = .ok r) ↔
      ResourceType.bucket = ResourceType.api) :=
  details_ignores_declarations emptyFunctionDependencies fdWithBucket
    { rtype := .bucket, name := "uploads" }

/-! ## Claim theorems: dependency-graph merge -/

/-- C3: the merge producing the dependency graph is commutative and
idempotent — merging the same claim set in any order yields an identical
graph, and merging a claim set together with a second copy of itself
yields the same graph as merging it once. -/
theorem mergeGraph_comm_idem :
    (∀ l₁ l₂ : List ResourceClaim, l₁.Perm l₂ → mergeGraph l₁ = mergeGraph l₂) ∧
    (∀ l : List ResourceClaim, mergeGraph (l ++ l) = mergeGraph l) := by
  constructor
  · intro l₁ l₂ hp
    funext k n
    exact List.toFinset_eq_of_perm _ _ ((hp.filter _).map _)
  · intro l
    funext k n
    simp [mergeGraph, List.filter_append, List.map_append, List.toFinset_append]

/-- Closed instance of the merge theorem: the two-claim set for bucket
uploads merged in either order, and merged twice, gives one graph. -/
theorem mergeGraph_comm_idem_witness :
    mergeGraph [claimA, claimB] = mergeGraph [claimB, claimA] ∧
    mergeGraph ([claimA, claimB] ++ [claimA, claimB]) = mergeGraph [claimA, claimB] :=
  ⟨mergeGraph_comm_idem.1 [claimA, claimB] [claimB, claimA] (List.Perm.swap claimB claimA []),
   mergeGraph_comm_idem.2 [claimA, claimB]⟩

/-! ## Claim theorems: build passes -/

/-- Every descriptor file existing in a state is covered by a deferred
removal, an invariant the Create function loop preserves. -/
theorem createLoop_files_covered (fs : List FnSpec) (st : BuildState)
    (h : ∀ x ∈ st.files, x ∈ st.deferredRm) :
    ∀ x ∈ (createLoop fs st).2.files, x ∈ (createLoop fs st).2.deferredRm := by
  induction fs generalizing st with
  | nil => simpa [createLoop] using h
  | cons f rest ih =>
    have hstep : ∀ x ∈ st.files ++ [descName st.ctr],
        x ∈ st.deferredRm ++ [descName st.ctr] := by
      intro x hx
      rcases List.mem_append.mp hx with hx | hx
      · exact List.mem_append.mpr (Or.inl (h x hx))
      · exact List.mem_append.mpr (Or.inr hx)
    cases hdesc : f.descriptorErr with
    | some e => simpa [createLoop, hdesc] using h
    | none =>
      cases hrt : f.runtimeErr with
      | some e => simpa [createLoop, hdesc, hrt] using hstep
      | none =>
        cases hgen : f.genErr with
        | some e => simpa [createLoop, hdesc, hrt, hgen] using hstep
        | none =>
          cases hbld : f.buildErr with
          | some e => simpa [createLoop, hdesc, hrt, hgen, hbld] using hstep
          | none =>
            simpa [createLoop, hdesc, hrt, hgen, hbld] using ih _ hstep

/-- The container loop neither creates descriptor files nor registers
removals. -/
theorem containersLoop_files (cs : List ContainerSpec) (st : BuildState) :
    (containersLoop cs st).2.files = st.files ∧
    (containersLoop cs st).2.deferredRm = st.deferredRm := by
  induction cs generalizing st with
  | nil => simp [containersLoop]
  | cons c rest ih =>
    cases hb : c.buildErr with
    | some e => simp [containersLoop, hb]
    | none => simpa [containersLoop, hb] using ih _

/-- Filtering out every element covered by the removal list leaves
nothing. -/
theorem filter_not_contains_eq_nil (l d : List String) (h : ∀ x ∈ l, x ∈ d) :
    l.filter (fun x => !(d.contains x)) = [] := by
  induction l with
  | nil => rfl
  | cons x rest ih =>
    have hx : d.contains x = true := by
      simpa [List.contains] using List.elem_iff.mpr (h x (List.mem_cons_self x rest))
    simp only [List.filter_cons, hx, Bool.not_true]
    exact ih fun y hy => h y (List.mem_cons_of_mem x hy)

/-- The CreateBaseDev loop preserves coverage of descriptor files by
deferred removals. -/
theorem baseDevLoop_files_covered (fs : List FnSpec) (st : DevState)
    (h : ∀ x ∈ st.files, x ∈ st.deferredRm) :
    ∀ x ∈ (baseDevLoop fs st).2.files, x ∈ (baseDevLoop fs st).2.deferredRm := by
  induction fs generalizing st with
  | nil => simpa [baseDevLoop] using h
  | cons f rest ih =>
    have hstep : ∀ x ∈ st.files ++ [descName st.ctr],
        x ∈ st.deferredRm ++ [descName st.ctr] := by
      intro x hx
      rcases List.mem_append.mp hx with hx | hx
      · exact List.mem_append.mpr (Or.inl (h x hx))
      · exact List.mem_append.mpr (Or.inr hx)
    cases hrt : f.runtimeErr with
    | some e => simpa [baseDevLoop, hrt] using h
    | none =>
      by_cases hskip : langOf f.handler ∈ st.imagesToBuild.map Prod.fst
      case pos => simpa [baseDevLoop, hrt, hskip] using ih _ h
      case neg =>
        cases hdesc : f.descriptorErr with
        | some e => simpa [baseDevLoop, hrt, hskip, hdesc] using h
        | none =>
          cases hgen : f.genErr with
          | some e => simpa [baseDevLoop, hrt, hskip, hdesc, hgen] using hstep
          | none =>
            cases hbld : f.buildErr with
            | some e => simpa [baseDevLoop, hrt, hskip, hdesc, hgen, hbld] using hstep
            | none =>
              simpa [baseDevLoop, hrt, hskip, hdesc, hgen, hbld] using ih _ hstep

/-- C8: for every project, both build passes remove every ephemeral
build descriptor they created on every exit path — success or any
failure — so no descriptor file created by a pass survives its
completion. -/
theorem build_passes_remove_descriptors (p : BuildProject) :
    (Create p).2.files = [] ∧ (CreateBaseDev p).2.files = [] := by
  constructor
  · cases heng : p.engineErr with
    | some e => simp [Create, heng, runDeferredRemovals, initialBuildState]
    | none =>
      have h0 : ∀ x ∈ initialBuildState.files, x ∈ initialBuildState.deferredRm := by
        intro x hx
        simp [initialBuildState] at hx
      rcases hloop : createLoop p.functions initialBuildState with ⟨oe, st⟩
      have hcov : ∀ x ∈ st.files, x ∈ st.deferredRm := by
        have := createLoop_files_covered p.functions initialBuildState h0
        rwa [hloop] at this
      cases oe with
      | some e =>
        simpa [Create, heng, hloop, runDeferredRemovals] using hcov
      | none =>
        have hcs := containersLoop_files p.containers st
        have hcov2 : ∀ x ∈ (containersLoop p.containers st).2.files,
            x ∈ (containersLoop p.containers st).2.deferredRm := by
          rw [hcs.1, hcs.2]
          exact hcov
        simpa [Create, heng, hloop, runDeferredRemovals] using hcov2
  · cases heng : p.engineErr with
    | some e => simp [CreateBaseDev, heng, runDevDeferredRemovals, initialDevState]
    | none =>
      have h0 : ∀ x ∈ initialDevState.files, x ∈ initialDevState.deferredRm := by
        intro x hx
        simp [initialDevState] at hx
      have hcov := baseDevLoop_files_covered p.functions initialDevState h0
      simpa [CreateBaseDev, heng, runDevDeferredRemovals] using hcov

/-- C5 counterexample: on the two-function project where A's build
fails, Create returns A's error alone and records no successful build —
function B was never processed, so its success is absent from the
result. -/
theorem create_aborts_on_failure_cex :
    (Create projAB).1 = some "engine: boom" ∧ (Create projAB).2.builds = [] := by
  constructor <;> rfl

/-- C5 amended: a single function's build failure aborts the whole pass
immediately — when the first function of the project fails its engine
build, Create returns exactly that error and performs no image build at
all, so no later function's success is recorded. -/
theorem create_stops_at_failing_function (dir : String) (cs : List ContainerSpec)
    (f : FnSpec) (rest : List FnSpec) (e : String)
    (hd : f.descriptorErr = none) (hr : f.runtimeErr = none) (hg : f.genErr = none)
    (hb : f.buildErr = some e) :
    (Create (BuildProject.mk dir none (f :: rest) cs)).1 = some e ∧
    (Create (BuildProject.mk dir none (f :: rest) cs)).2.builds = [] := by
  constructor <;>
    simp [Create, createLoop, hd, hr, hg, hb, runDeferredRemovals, initialBuildState]

/-- Closed instance of the abort theorem on the concrete project where
A's engine build fails while B would succeed. -/
theorem create_stops_at_failing_function_witness :
    (Create (BuildProject.mk "/p" none (fnA :: [fnB]) [])).1 = some "engine: boom" ∧
    (Create (BuildProject.mk "/p" none (fnA :: [fnB]) [])).2.builds = [] :=
  create_stops_at_failing_function "/p" [] fnA [fnB] "engine: boom" rfl rfl rfl rfl

/-- The CreateBaseDev loop keeps the performed dev builds in bijection
with the imagesToBuild keys, so their languages stay distinct. -/
theorem baseDevLoop_builds_eq_keys (fs : List FnSpec) (st : DevState)
    (heq : st.devBuilds = st.imagesToBuild.map Prod.fst)
    (hnd : st.devBuilds.Nodup) :
    (baseDevLoop fs st).2.devBuilds =
      (baseDevLoop fs st).2.imagesToBuild.map Prod.fst ∧
    (baseDevLoop fs st).2.devBuilds.Nodup := by
  induction fs generalizing st with
  | nil => exact ⟨by simpa [baseDevLoop] using heq, by simpa [baseDevLoop] using hnd⟩
  | cons f rest ih =>
    cases hrt : f.runtimeErr with
    | some e =>
      exact ⟨by simpa [baseDevLoop, hrt] using heq, by simpa [baseDevLoop, hrt] using hnd⟩
    | none =>
      by_cases hskip : langOf f.handler ∈ st.imagesToBuild.map Prod.fst
      case pos =>
        have := ih st heq hnd
        exact ⟨by simpa [baseDevLoop, hrt, hskip] using this.1,
          by simpa [baseDevLoop, hrt, hskip] using this.2⟩
      case neg =>
        have hnotmem : langOf f.handler ∉ st.devBuilds := by
          rw [heq]
          exact hskip
        have heq2 : st.devBuilds ++ [langOf f.handler] =
            (st.imagesToBuild ++ [(langOf f.handler, devImageName (langOf f.handler))]).map
              Prod.fst := by
          simp [heq]
        have hnd2 : (st.devBuilds ++ [langOf f.handler]).Nodup := by
          simp [List.nodup_append, hnd, hnotmem]
        cases hdesc : f.descriptorErr with
        | some e =>
          exact ⟨by simpa [baseDevLoop, hrt, hskip, hdesc] using heq,
            by simpa [baseDevLoop, hrt, hskip, hdesc] using hnd⟩
        | none =>
          cases hgen : f.genErr with
          | some e =>
            exact ⟨by simpa [baseDevLoop, hrt, hskip, hdesc, hgen] using heq,
              by simpa [baseDevLoop, hrt, hskip, hdesc, hgen] using hnd⟩
          | none =>
            cases hbld : f.buildErr with
            | some e =>
              exact ⟨by simpa [baseDevLoop, hrt, hskip, hdesc, hgen, hbld] using heq,
                by simpa [baseDevLoop, hrt, hskip, hdesc, hgen, hbld] using hnd⟩
            | none =>
              have := ih (DevState.mk (st.ctr + 1) (st.files ++ [descName st.ctr])
                (st.deferredRm ++ [descName st.ctr])
                (st.devBuilds ++ [langOf f.handler])
                (st.imagesToBuild ++ [(langOf f.handler, devImageName (langOf f.handler))]))
                heq2 hnd2
              exact ⟨by simpa [baseDevLoop, hrt, hskip, hdesc, hgen, hbld] using this.1,
                by simpa [baseDevLoop, hrt, hskip, hdesc, hgen, hbld] using this.2⟩

/-- C9: for every project, the shared dev-image pass builds at most one
dev image per distinct handler runtime language — the languages of the
engine builds it performs are pairwise distinct and coincide with the
keys recorded in imagesToBuild, so a language already built is always
skipped. -/
theorem createBaseDev_one_build_per_language (p : BuildProject) :
    (CreateBaseDev p).2.devBuilds.Nodup ∧
    (CreateBaseDev p).2.devBuilds = (CreateBaseDev p).2.imagesToBuild.map Prod.fst := by
  cases heng : p.engineErr with
  | some e =>
    constructor <;> simp [CreateBaseDev, heng, runDevDeferredRemovals, initialDevState]
  | none =>
    have h := baseDevLoop_builds_eq_keys p.functions initialDevState rfl List.nodup_nil
    exact ⟨by simpa [CreateBaseDev, heng, runDevDeferredRemovals] using h.2,
      by simpa [CreateBaseDev, heng, runDevDeferredRemovals] using h.1⟩

/-! ## Claim theorems: table output -/

/-- Every row printMap emits starts with the key it was emitted for. -/
theorem rowFor_head (names : List String) (k : String) (o : Option TValue)
    (r : List String) (h : rowFor names k o = some r) : r.head? = some k := by
  cases o with
  | none => cases h
  | some v =>
    cases v with
    | strct fields =>
      simp [rowFor] at h
      subst h
      rfl
    | simple s =>
      simp [rowFor] at h
      subst h
      rfl
    | composite => cases h

/-- The keys of the emitted rows, in order, are the processed keys whose
value gets a row. -/
theorem filterMap_rowFor_keys (names : List String) (pairs : List (String × TValue))
    (ks : List String) :
    (ks.filterMap (fun k => rowFor names k (mapIndex pairs k))).filterMap
      (fun r => r.head?) =
    ks.filter (fun k => (rowFor names k (mapIndex pairs k)).isSome) := by
  induction ks with
  | nil => rfl
  | cons k rest ih =>
    cases hro : rowFor names k (mapIndex pairs k) with
    | none => simp [List.filterMap_cons, hro, List.filter_cons, ih]
    | some r =>
      have hh := rowFor_head names k _ r hro
      simp [List.filterMap_cons, hro, List.filter_cons, hh, ih]

/-- Map indexing is invariant under reordering of the entries when the
keys are unique. -/
theorem mapIndex_perm : ∀ {p₁ p₂ : List (String × TValue)}, p₁.Perm p₂ →
    (p₁.map Prod.fst).Nodup → ∀ k, mapIndex p₁ k = mapIndex p₂ k := by
  intro p₁ p₂ hp
  induction hp with
  | nil => intro _ k; rfl
  | cons x htl ih =>
    intro hnd k
    rw [List.map_cons, List.nodup_cons] at hnd
    by_cases hk : x.1 = k
    · simp [mapIndex, hk]
    · simp only [mapIndex]
      rw [if_neg hk, if_neg hk]
      exact ih hnd.2 k
  | swap x y l =>
    intro hnd k
    rw [List.map_cons, List.map_cons, List.nodup_cons] at hnd
    have hxy : y.1 ≠ x.1 := fun hc => hnd.1 (by rw [hc]; exact List.mem_cons_self _ _)
    by_cases hy : y.1 = k <;> by_cases hx : x.1 = k
    · exact absurd (hy.trans hx.symm) hxy
    · simp [mapIndex, hy, hx]
    · simp [mapIndex, hy, hx]
    · simp [mapIndex, hy, hx]
  | trans h₁ h₂ ih₁ ih₂ =>
    intro hnd k
    have hmid := ((h₁.map Prod.fst).nodup_iff).mp hnd
    exact (ih₁ hnd k).trans (ih₂ hmid k)

/-- The sorted key list is sorted. -/
theorem sortKeys_sorted (l : List String) : List.Sorted (· ≤ ·) (sortKeys l) :=
  List.sorted_insertionSort _ l

/-- Sorting permutes the key list. -/
theorem sortKeys_perm (l : List String) : (sortKeys l).Perm l :=
  List.perm_insertionSort _ l

/-- Two key lists that are permutations of one another sort to the same
list. -/
theorem sortKeys_eq_of_perm (l₁ l₂ : List String) (h : l₁.Perm l₂) :
    sortKeys l₁ = sortKeys l₂ :=
  List.eq_of_perm_of_sorted ((sortKeys_perm l₁).trans (h.trans (sortKeys_perm l₂).symm))
    (sortKeys_sorted l₁) (sortKeys_sorted l₂)

/-- C10 counterexample: a one-key map whose value is of a composite
reflect kind (slice, array, func, chan, interface or map) renders as the
header alone — zero data rows are emitted for its one key, so the
default table output does not emit one row per key. -/
theorem printMap_composite_value_no_row :
    printMap ["f"] [("a", TValue.composite)] = [["key", "f"]] ∧
    dataRowKeys (printMap ["f"] [("a", TValue.composite)]) = [] :=
  ⟨rfl, rfl⟩

/-- C10 amended: in the default table output of a map, at most one row
is emitted per key — exactly one for keys whose value is of struct or
simple kind and none for composite kinds, which are skipped — the
emitted rows are ordered by ascending string value of the keys, and the
rendered table is deterministic: any reordering of the map's iteration
order (keys being unique) produces identical output. -/
theorem printMap_rows_sorted_deterministic (names : List String)
    (pairs : List (String × TValue)) :
    dataRowKeys (printMap names pairs) =
      (sortKeys (pairs.map Prod.fst)).filter
        (fun k => (rowFor names k (mapIndex pairs k)).isSome) ∧
    List.Sorted (· ≤ ·) (dataRowKeys (printMap names pairs)) ∧
    (∀ pairs' : List (String × TValue), (pairs.map Prod.fst).Nodup → pairs.Perm pairs' →
      printMap names pairs = printMap names pairs') := by
  have hkeys : dataRowKeys (printMap names pairs) =
      (sortKeys (pairs.map Prod.fst)).filter
        (fun k => (rowFor names k (mapIndex pairs k)).isSome) := by
    show ((sortKeys (pairs.map Prod.fst)).filterMap
        (fun k => rowFor names k (mapIndex pairs k))).filterMap (fun r => r.head?) = _
    exact filterMap_rowFor_keys names pairs _
  refine ⟨hkeys, ?_, ?_⟩
  · rw [hkeys]
    exact List.Pairwise.filter _ (sortKeys_sorted _)
  · intro pairs' hnd hp
    have hk : sortKeys (pairs.map Prod.fst) = sortKeys (pairs'.map Prod.fst) :=
      sortKeys_eq_of_perm _ _ (hp.map _)
    have hf : (fun k => rowFor names k (mapIndex pairs k)) =
        (fun k => rowFor names k (mapIndex pairs' k)) :=
      funext fun k => by rw [mapIndex_perm hp hnd k]
    show (_ :: (sortKeys (pairs.map Prod.fst)).filterMap
        (fun k => rowFor names k (mapIndex pairs k))) = _
    rw [hk, hf]
    rfl

/-- Closed instance of the printMap theorem: swapping the iteration
order of a two-key map leaves the rendered table unchanged. -/
theorem printMap_deterministic_witness :
    printMap ["name"] [("b", TValue.simple "1"), ("a", TValue.simple "2")] =
      printMap ["name"] [("a", TValue.simple "2"), ("b", TValue.simple "1")] :=
  (printMap_rows_sorted_deterministic ["name"]
      [("b", TValue.simple "1"), ("a", TValue.simple "2")]).2.2
    [("a", TValue.simple "2"), ("b", TValue.simple "1")] (by decide)
    (List.Perm.swap _ _ _)

end NitricSpec
